import Mathlib

/-!
Shallow embedding of the libp2p integrity-fee gossip validator of
src/p2p/src/libp2p_connection.rs (mwc-node), together with the
integrity-envelope codec, the peer-exchange handling of the event loop
and the directory step of the reconnection (dialer) task.

Bytes are lists of natural numbers; machine integers are Nat or Int.
External cryptographic primitives (secp256k1, aggsig, hashing) live in
crates outside src/ and are abstracted as function records, so every
theorem below is quantified over their behaviour.
-/

/-- Byte strings are modelled as lists of natural numbers. -/
abbrev Bytes := List Nat

/-- Modelled from the spec: the shared serializer format (the
SimplePushSerializer and SimplePopSerializer types come from the libp2p
dependency, not from src/). A 16-bit little-endian length prefix,
as the spec fixes integers to be little-endian. -/
def encodeU16 (n : Nat) : Bytes := [n % 256, n / 256 % 256]

/-- Modelled from the spec: pop a 16-bit little-endian integer from the
front of the data; a parse failure yields zero and empty rest. -/
def popU16 : Bytes → Nat × Bytes
  | b0 :: b1 :: rest => (b0 + 256 * b1, rest)
  | _ => (0, [])

/-- Modelled from the spec: pop one length-prefixed byte vector; any
parse failure yields an empty vector, which upstream treats as invalid. -/
def popVecData (data : Bytes) : Bytes × Bytes :=
  if (popU16 data).1 ≤ (popU16 data).2.length then
    ((popU16 data).2.take (popU16 data).1, (popU16 data).2.drop (popU16 data).1)
  else ([], [])

/-- Modelled from the spec: the pop-side serializer state. The frame is
tagged with a version byte, read on construction. -/
structure SimplePopSerializer where
  version : Nat
  data : Bytes
deriving DecidableEq, Repr

/-- Modelled from the spec: construct a pop serializer, reading the
version byte from the head of the message. -/
def SimplePopSerializer.new : Bytes → SimplePopSerializer
  | [] => ⟨0, []⟩
  | b :: rest => ⟨b, rest⟩

/-- Modelled from the spec: pop one length-prefixed vector. -/
def SimplePopSerializer.pop_vec (s : SimplePopSerializer) : Bytes × SimplePopSerializer :=
  ((popVecData s.data).1, ⟨s.version, (popVecData s.data).2⟩)

/-- Modelled from the spec: pop a u16 value. -/
def SimplePopSerializer.pop_u16 (s : SimplePopSerializer) : Nat × SimplePopSerializer :=
  ((popU16 s.data).1, ⟨s.version, (popU16 s.data).2⟩)

/-- Modelled from the spec: skip one length-prefixed vector. -/
def SimplePopSerializer.skip_vec (s : SimplePopSerializer) : SimplePopSerializer :=
  (s.pop_vec).2

/-- Modelled from the spec: push-side serializer step, appending one
length-prefixed byte vector. -/
def push_vec (buf v : Bytes) : Bytes := buf ++ encodeU16 v.length ++ v

/-- Version byte of a frame, as read by SimplePopSerializer::new. -/
def versionOf (message : Bytes) : Nat := (SimplePopSerializer.new message).version

/-- Modelled from the spec: Commitment::from_vec of grin_util (outside
src/) copies the given bytes into a 33-byte Pedersen commitment,
zero-padding short inputs and truncating long ones. -/
def Commitment.from_vec (v : Bytes) : Bytes := (v ++ List.replicate 33 0).take 33

/-- The kernel excess decoded from an integrity frame: the first
length-prefixed vector after the version byte, as popped by
validate_integrity_message. -/
def excessOf (message : Bytes) : Bytes :=
  Commitment.from_vec ((SimplePopSerializer.new message).pop_vec).1

/-- The compact-signature bytes decoded from an integrity frame: the
second length-prefixed vector, as popped by validate_integrity_message. -/
def sigBytesOf (message : Bytes) : Bytes :=
  (((SimplePopSerializer.new message).pop_vec).2.pop_vec).1

/-- build_integrity_message (source lines 801-813): version byte 1, then
length-prefixed kernel excess, compact signature and payload. -/
def build_integrity_message (kernel_excess signature message_data : Bytes) : Bytes :=
  push_vec (push_vec (push_vec [1] kernel_excess) signature) message_data

/-- read_message_data (source lines 782-795): check version 1, skip two
length-prefixed vectors, return the third; a bad version yields an empty
payload. -/
def read_message_data (message : Bytes) : Bytes :=
  if versionOf message ≠ 1 then []
  else ((((SimplePopSerializer.new message).skip_vec).skip_vec).pop_vec).1

/-- Constant from source line 90: history length limit per kernel. -/
def INTEGRITY_CALL_HISTORY_LEN_LIMIT : Nat := 10

/-- Constant from source line 92: call interval limit in seconds. -/
def INTEGRITY_CALL_MAX_PERIOD : Int := 15

/-- Constant from source line 95: number of top blocks in which an
integrity fee is valid. -/
def INTEGRITY_FEE_VALID_BLOCKS : Nat := 1440

/-- Constant from source line 97: minimum integrity fee in base fees. -/
def INTEGRITY_FEE_MIN_X : Nat := 10

/-- A transaction kernel as far as the validator uses it: the lookup
result supplies a fee via features.get_fee (TxKernel itself lives in
grin_core, outside src/). -/
structure TxKernel where
  fee : Nat
deriving DecidableEq, Repr

/-- Abstract record of the cryptographic primitives the validator calls;
they live in grin_util and grin_core, outside src/, so all theorems are
quantified over them. Public keys, hashes, messages and signatures are
kept as byte strings. -/
structure CryptoOps where
  /-- Commitment::to_pubkey: derive a public key from a kernel excess. -/
  to_pubkey : Bytes → Option Bytes
  /-- Hash::from_vec followed by as_bytes: the domain hash of a byte string. -/
  hash_from_vec : Bytes → Bytes
  /-- Message::from_slice: build a signable message from a hash. -/
  message_from_slice : Bytes → Option Bytes
  /-- Signature::from_compact: parse a 64-byte compact signature. -/
  signature_from_compact : Bytes → Option Bytes
  /-- aggsig::verify_completed_sig sig pubkey msg, with the public key
  also passed as the public nonce, as in source lines 707-713. -/
  verify_completed_sig : Bytes → Bytes → Bytes → Bool

/-- The requests_cash map of run_libp2p_node (source line 342): per
kernel excess, the queue of unix timestamps of accepted calls, oldest
first; a HashMap modelled as an association list with unique keys. -/
abbrev RequestsCash := List (Bytes × List Int)

/-- HashMap::get on the requests_cash association list. -/
def cashGet : RequestsCash → Bytes → Option (List Int)
  | [], _ => none
  | (k0, v) :: rest, k => if k0 = k then some v else cashGet rest k

/-- HashMap::insert or in-place mutation on the requests_cash list:
replaces the value at an existing key, else appends the binding. -/
def cashSet : RequestsCash → Bytes → List Int → RequestsCash
  | [], k, v => [(k, v)]
  | (k0, v0) :: rest, k, v =>
    if k0 = k then (k, v) :: rest else (k0, v0) :: cashSet rest k v

/-- The truncation loop of source lines 750-752: pop from the front
while the history is longer than INTEGRITY_CALL_HISTORY_LEN_LIMIT. -/
def trimFront (l : List Int) : List Int :=
  l.drop (l.length - INTEGRITY_CALL_HISTORY_LEN_LIMIT)

/-- The rate-limit stage of validate_integrity_message (source lines
745-778): append now to the history of the kernel excess, truncate to
the length limit, and reject when a full window was filled faster than
INTEGRITY_CALL_MAX_PERIOD per call on average. -/
def rate_limit_update (requests_cash : RequestsCash) (excess : Bytes) (now : Int)
    (integrity_fee : Nat) : Except Unit Nat × RequestsCash :=
  let calls : List Int :=
    match cashGet requests_cash excess with
    | some calls => trimFront (calls ++ [now])
    | none => [now]
  let requests_cash1 := cashSet requests_cash excess calls
  if INTEGRITY_CALL_HISTORY_LEN_LIMIT ≤ calls.length then
    if (calls.getLastD 0 - calls.headD 0).tdiv ((calls.length - 1 : Nat) : Int) <
        INTEGRITY_CALL_MAX_PERIOD then
      (Except.ok 0, requests_cash1)
    else (Except.ok integrity_fee, requests_cash1)
  else (Except.ok integrity_fee, requests_cash1)

/-- Result of one validator call: the returned Result of fee, the
requests_cash map after the call, and whether the debug assertion on
the bad-version path (source line 664) fired. -/
structure VOut where
  res : Except Unit Nat
  cash : RequestsCash
  assertFired : Bool

/-- validate_integrity_message (source lines 651-779). The version
check, the sequential pops of kernel excess and signature, the
signature verification, the kernel lookup, the fee floor and the
rate-limit update, in source order. The Error type of the kernel lookup
is collapsed to Unit. -/
def validate_integrity_message (ops : CryptoOps)
    (output_validation_fn : Bytes → Except Unit (Option TxKernel))
    (peer_id : Bytes) (message : Bytes) (requests_cash : RequestsCash)
    (fee_base : Nat) (now : Int) : VOut :=
  if versionOf message ≠ 1 then
    ⟨Except.ok 0, requests_cash, true⟩
  else
    match ops.to_pubkey (excessOf message) with
    | none => ⟨Except.ok 0, requests_cash, false⟩
    | some integrity_pk =>
      match ops.message_from_slice (ops.hash_from_vec peer_id) with
      | none => ⟨Except.ok 0, requests_cash, false⟩
      | some msg_message =>
        match ops.signature_from_compact (sigBytesOf message) with
        | none => ⟨Except.ok 0, requests_cash, false⟩
        | some signature =>
          if ops.verify_completed_sig signature integrity_pk msg_message then
            match output_validation_fn (excessOf message) with
            | Except.error e => ⟨Except.error e, requests_cash, false⟩
            | Except.ok none => ⟨Except.ok 0, requests_cash, false⟩
            | Except.ok (some integrity_kernel) =>
              if integrity_kernel.fee < fee_base * INTEGRITY_FEE_MIN_X then
                ⟨Except.ok 0, requests_cash, false⟩
              else
                ⟨(rate_limit_update requests_cash (excessOf message) now integrity_kernel.fee).1,
                 (rate_limit_update requests_cash (excessOf message) now integrity_kernel.fee).2,
                 false⟩
          else ⟨Except.ok 0, requests_cash, false⟩

/-- State of requests_cash after n back-to-back calls of the validator
on the same arguments, starting from the empty map. -/
def iterate_cash (ops : CryptoOps)
    (output_validation_fn : Bytes → Except Unit (Option TxKernel))
    (peer_id : Bytes) (message : Bytes) (fee_base : Nat) (now : Int) :
    Nat → RequestsCash
  | 0 => []
  | n + 1 =>
    (validate_integrity_message ops output_validation_fn peer_id message
      (iterate_cash ops output_validation_fn peer_id message fee_base now n)
      fee_base now).cash

/-- Gossipsub message acceptance verdicts reported back to the gossip
layer (the MessageAcceptance type of the libp2p dependency). -/
inductive MessageAcceptance where
  | Accept
  | Reject
  | Ignore
deriving DecidableEq, Repr

/-- Abstract record of the PeerId conversions the event loop calls; they
live in the libp2p dependency, outside src/. PeerIds are wire byte
strings, onion addresses are strings. -/
structure PeerOps where
  /-- PeerId::from_bytes: decode a wire PeerId. -/
  from_bytes : Bytes → Option Bytes
  /-- PeerId::as_onion_address: onion string of a PeerId, when it
  carries a valid ed25519 key. -/
  as_onion_address : Bytes → Option String

/-- The LIBP2P_PEERS directory (source line 76): onion string of the
publisher to its neighbor onion addresses and a last-seen unix time; a
HashMap modelled as an association list with unique keys. -/
abbrev PeersDir := List (String × (List String × Int))

/-- HashMap::get on the peer directory. -/
def dirGet : PeersDir → String → Option (List String × Int)
  | [], _ => none
  | (k0, v) :: rest, k => if k0 = k then some v else dirGet rest k

/-- HashMap::insert on the peer directory: overwrites the value at an
existing key, else appends the binding. -/
def dirInsert : PeersDir → String → (List String × Int) → PeersDir
  | [], k, v => [(k, v)]
  | (k0, v0) :: rest, k, v =>
    if k0 = k then (k, v) :: rest else (k0, v0) :: dirInsert rest k v

/-- HashMap::remove on the peer directory. -/
def dirRemove : PeersDir → String → PeersDir
  | [], _ => []
  | (k0, v0) :: rest, k =>
    if k0 = k then dirRemove rest k else (k0, v0) :: dirRemove rest k

/-- The pop loop of source lines 410-411: pop n length-prefixed vectors
from the serializer. -/
def pop_vecs (s : SimplePopSerializer) : Nat → List Bytes
  | 0 => []
  | n + 1 => (s.pop_vec).1 :: pop_vecs (s.pop_vec).2 n

/-- The peer-collection loop of source lines 409-425: decode every wire
PeerId, map it to its onion address, and drop entries that fail either
step. -/
def collect_peer_addrs (ops : PeerOps) : List Bytes → List String
  | [] => []
  | d :: rest =>
    match ops.from_bytes d with
    | none => collect_peer_addrs ops rest
    | some peer =>
      match ops.as_onion_address peer with
      | none => collect_peer_addrs ops rest
      | some addr => addr :: collect_peer_addrs ops rest

/-- Declared peer count of a peer-exchange frame: the u16 popped right
after the version byte (source line 400). -/
def szOf (data : Bytes) : Nat := ((SimplePopSerializer.new data).pop_u16).1

/-- Effect of one PEER_TOPIC message on the event loop: the verdict
reported to gossip, whether disconnect_peer(peer, true) was called, and
the peer directory afterwards. -/
structure PxOut where
  verdict : Option MessageAcceptance
  disconnected_banned : Bool
  peers : PeersDir
deriving DecidableEq, Repr

/-- The PEER_TOPIC branch of the event loop (source lines 367-440):
reject, disconnect and ban a non-connected source; otherwise report
Ignore, then decode the PeerExchangeFrame. A version other than 1 skips
the message; a declared count above PEER_EXCHANGE_NUMBER_LIMIT (a
constant of the libp2p dependency, here the argument px_limit)
disconnects and bans; otherwise the decoded neighbor list replaces the
directory entry of the publisher onion address. -/
def handle_peer_exchange (ops : PeerOps) (px_limit : Nat) (connected : Bool)
    (peer_id : Bytes) (data : Bytes) (peers : PeersDir) (now : Int) : PxOut :=
  if !connected then ⟨some MessageAcceptance.Reject, true, peers⟩
  else if versionOf data ≠ 1 then ⟨some MessageAcceptance.Ignore, false, peers⟩
  else if px_limit < szOf data then ⟨some MessageAcceptance.Ignore, true, peers⟩
  else
    match ops.as_onion_address peer_id with
    | some addr =>
      ⟨some MessageAcceptance.Ignore, false,
        dirInsert peers addr
          (collect_peer_addrs ops
            (pop_vecs ((SimplePopSerializer.new data).pop_u16).2 (szOf data)), now)⟩
    | none => ⟨some MessageAcceptance.Ignore, false, peers⟩

/-- Result of one directory step of the reconnection task: the
directory afterwards and the popped address, when one was taken. -/
structure DialPick where
  peers : PeersDir
  popped : Option String
deriving DecidableEq, Repr

/-- The directory mutation of one iteration of the dialer loop (source
lines 554-611): for the randomly chosen publisher key and random draw i,
pop the address at index i mod length when the neighbor list is
non-empty, and remove the publisher entry when the list is found already
empty. -/
def dialer_take_address (peers : PeersDir) (key : String) (i : Nat) : DialPick :=
  match dirGet peers key with
  | none => ⟨peers, none⟩
  | some entry =>
    if entry.1 ≠ [] then
      ⟨dirInsert peers key (entry.1.eraseIdx (i % entry.1.length), entry.2),
        some (entry.1.getD (i % entry.1.length) "")⟩
    else ⟨dirRemove peers key, none⟩

/-- Concrete crypto record used for evaluation: every parse is the
identity and every signature verifies. -/
def trivialOps : CryptoOps :=
  ⟨fun c => some c, fun h => h, fun h => some h, fun s => some s, fun _ _ _ => true⟩

/-- Concrete crypto record whose public-key derivation always fails. -/
def pubkeyNoneOps : CryptoOps :=
  ⟨fun _ => none, fun h => h, fun h => some h, fun s => some s, fun _ _ _ => true⟩

/-- Concrete kernel lookup returning a kernel with fee 10000000. -/
def constLookup : Bytes → Except Unit (Option TxKernel) :=
  fun _ => Except.ok (some ⟨10000000⟩)

/-- Concrete kernel lookup that always reports a transient error. -/
def errLookup : Bytes → Except Unit (Option TxKernel) :=
  fun _ => Except.error ()

/-- Concrete peer-conversion record used for evaluation. -/
def trivialPeerOps : PeerOps :=
  ⟨fun b => some b, fun _ => some "addr"⟩

/-- Concrete integrity frame used for evaluation: a 33-byte commitment,
a 64-byte compact signature and a 7-byte payload. -/
def testMsg : Bytes :=
  build_integrity_message (List.replicate 33 8) (List.replicate 64 1) [1, 2, 3, 4, 3, 2, 1]

/-- Concrete publisher PeerId wire bytes used for evaluation. -/
def testPid : Bytes := [0, 1, 2]

theorem take_len_append (v rest : Bytes) : (v ++ rest).take v.length = v := by
  induction v with
  | nil => simp
  | cons a v ih => simp [ih]

theorem drop_len_append (v rest : Bytes) : (v ++ rest).drop v.length = rest := by
  induction v with
  | nil => simp
  | cons a v ih => simp [ih]

theorem popVecData_append (v rest : Bytes) (h : v.length < 65536) :
    popVecData (encodeU16 v.length ++ (v ++ rest)) = (v, rest) := by
  have hdiv : v.length / 256 < 256 := by omega
  have hmod : v.length / 256 % 256 = v.length / 256 := Nat.mod_eq_of_lt hdiv
  have hlen : v.length % 256 + 256 * (v.length / 256 % 256) = v.length := by
    rw [hmod]; exact Nat.mod_add_div v.length 256
  simp only [popVecData, encodeU16, List.cons_append, List.nil_append, popU16, hlen]
  rw [if_pos (by simp)]
  rw [take_len_append, drop_len_append]

theorem popVecData_exact (v : Bytes) (h : v.length < 65536) :
    popVecData (encodeU16 v.length ++ v) = (v, []) := by
  have h1 := popVecData_append v [] h
  simpa using h1

theorem new_build (k s p : Bytes) :
    SimplePopSerializer.new (build_integrity_message k s p) =
      ⟨1, encodeU16 k.length ++ (k ++ (encodeU16 s.length ++ (s ++ (encodeU16 p.length ++ p))))⟩ := by
  simp [build_integrity_message, push_vec, SimplePopSerializer.new, List.append_assoc]

theorem versionOf_build (k s p : Bytes) : versionOf (build_integrity_message k s p) = 1 := by
  simp [versionOf, new_build]

theorem excessOf_build (k s p : Bytes) (hk : k.length < 65536) :
    excessOf (build_integrity_message k s p) = Commitment.from_vec k := by
  simp [excessOf, SimplePopSerializer.pop_vec, new_build, popVecData_append k _ hk]

theorem sigBytesOf_build (k s p : Bytes) (hk : k.length < 65536) (hs : s.length < 65536) :
    sigBytesOf (build_integrity_message k s p) = s := by
  simp [sigBytesOf, SimplePopSerializer.pop_vec, new_build, popVecData_append k _ hk,
    popVecData_append s _ hs]

/-- C4: for every commitment, compact signature and payload whose
lengths fit the 16-bit length prefixes, decoding the frame produced by
build_integrity_message with read_message_data yields exactly the
payload. -/
theorem build_read_roundtrip (k s p : Bytes) (hk : k.length < 65536)
    (hs : s.length < 65536) (hp : p.length < 65536) :
    read_message_data (build_integrity_message k s p) = p := by
  simp [read_message_data, versionOf_build, SimplePopSerializer.skip_vec,
    SimplePopSerializer.pop_vec, new_build, popVecData_append k _ hk,
    popVecData_append s _ hs, popVecData_exact p hp]

theorem build_read_roundtrip_witness :
    (List.replicate 33 8 : Bytes).length < 65536 ∧
    read_message_data testMsg = [1, 2, 3, 4, 3, 2, 1] :=
  ⟨by decide,
    build_read_roundtrip (List.replicate 33 8) (List.replicate 64 1)
      [1, 2, 3, 4, 3, 2, 1] (by decide) (by decide) (by decide)⟩

theorem rate_limit_res_cases (cash : RequestsCash) (e : Bytes) (now : Int) (fee : Nat) :
    (rate_limit_update cash e now fee).1 = Except.ok 0 ∨
    (rate_limit_update cash e now fee).1 = Except.ok fee := by
  simp only [rate_limit_update]
  split
  · split
    · exact Or.inl rfl
    · exact Or.inr rfl
  · exact Or.inr rfl

theorem validate_ok_pos_spec {ops : CryptoOps}
    {lookup : Bytes → Except Unit (Option TxKernel)}
    {pid msg : Bytes} {cash : RequestsCash} {fb : Nat} {now : Int} {f : Nat}
    (h : (validate_integrity_message ops lookup pid msg cash fb now).res = Except.ok f)
    (hf : 0 < f) :
    versionOf msg = 1 ∧
    ∃ pk m s kern,
      ops.to_pubkey (excessOf msg) = some pk ∧
      ops.message_from_slice (ops.hash_from_vec pid) = some m ∧
      ops.signature_from_compact (sigBytesOf msg) = some s ∧
      ops.verify_completed_sig s pk m = true ∧
      lookup (excessOf msg) = Except.ok (some kern) ∧
      fb * INTEGRITY_FEE_MIN_X ≤ kern.fee ∧ f = kern.fee := by
  unfold validate_integrity_message at h
  split at h
  · simp at h; omega
  next hv =>
  rw [not_not] at hv
  refine ⟨hv, ?_⟩
  split at h
  · simp at h; omega
  next pk hpk =>
  split at h
  · simp at h; omega
  next m hm =>
  split at h
  · simp at h; omega
  next s hsig =>
  split at h
  next hver =>
    split at h
    next e hlk => simp at h
    next hlk => simp at h; omega
    next kern hlk =>
      split at h
      next hfee => simp at h; omega
      next hfee =>
        simp only at h
        rcases rate_limit_res_cases cash (excessOf msg) now kern.fee with h0 | hk
        · rw [h0] at h; simp at h; omega
        · rw [hk] at h; simp at h
          exact ⟨pk, m, s, kern, hpk, hm, hsig, hver, hlk, Nat.not_lt.mp hfee, h.symm⟩
  next hver => simp at h; omega

theorem validate_checks_passed {ops : CryptoOps}
    {lookup : Bytes → Except Unit (Option TxKernel)}
    {pid msg : Bytes} {fb : Nat} {pk m s : Bytes} {kern : TxKernel}
    (hv : versionOf msg = 1)
    (hpk : ops.to_pubkey (excessOf msg) = some pk)
    (hm : ops.message_from_slice (ops.hash_from_vec pid) = some m)
    (hsig : ops.signature_from_compact (sigBytesOf msg) = some s)
    (hver : ops.verify_completed_sig s pk m = true)
    (hlk : lookup (excessOf msg) = Except.ok (some kern))
    (hfee : fb * INTEGRITY_FEE_MIN_X ≤ kern.fee) :
    ∀ cash now, validate_integrity_message ops lookup pid msg cash fb now =
      ⟨(rate_limit_update cash (excessOf msg) now kern.fee).1,
       (rate_limit_update cash (excessOf msg) now kern.fee).2, false⟩ := by
  intro cash now
  unfold validate_integrity_message
  split
  · simp_all
  split
  · simp_all
  next pk0 hpk0 =>
  split
  · simp_all
  next m0 hm0 =>
  split
  · simp_all
  next s0 hsig0 =>
  rw [hpk0] at hpk
  rw [hm0] at hm
  rw [hsig0] at hsig
  cases hpk; cases hm; cases hsig
  split
  next =>
    split
    next e hlk0 => rw [hlk0] at hlk; cases hlk
    next hlk0 => rw [hlk0] at hlk; cases hlk
    next kern0 hlk0 =>
      rw [hlk0] at hlk
      cases hlk
      split
      next hfee0 => omega
      next => rfl
  next hver0 => simp_all

/-- C1: for every message accepted by the validator, meaning a call of
validate_integrity_message that returns a non-zero fee, the kernel
lookup on the decoded kernel excess returned some kernel whose fee is
the returned fee and is at least INTEGRITY_FEE_MIN_X times fee_base,
and the compact signature decoded from the frame verifies as a
completed aggsig over the hashed wire bytes of the publisher PeerId
under the public key derived from the kernel excess. -/
theorem validator_accept_spec (ops : CryptoOps)
    (lookup : Bytes → Except Unit (Option TxKernel))
    (pid msg : Bytes) (cash : RequestsCash) (fb : Nat) (now : Int) (f : Nat)
    (h : (validate_integrity_message ops lookup pid msg cash fb now).res = Except.ok f)
    (hf : 0 < f) :
    ∃ kern pk m s,
      lookup (excessOf msg) = Except.ok (some kern) ∧
      fb * INTEGRITY_FEE_MIN_X ≤ kern.fee ∧ f = kern.fee ∧
      ops.to_pubkey (excessOf msg) = some pk ∧
      ops.message_from_slice (ops.hash_from_vec pid) = some m ∧
      ops.signature_from_compact (sigBytesOf msg) = some s ∧
      ops.verify_completed_sig s pk m = true := by
  obtain ⟨-, pk, m, s, kern, hpk, hm, hsig, hver, hlk, hfee, hval⟩ :=
    validate_ok_pos_spec h hf
  exact ⟨kern, pk, m, s, hlk, hfee, hval, hpk, hm, hsig, hver⟩

theorem validator_accept_spec_witness :
    (validate_integrity_message trivialOps constLookup testPid testMsg []
        1000000 100).res = Except.ok 10000000 ∧
    ∃ kern pk m s,
      constLookup (excessOf testMsg) = Except.ok (some kern) ∧
      1000000 * INTEGRITY_FEE_MIN_X ≤ kern.fee ∧ 10000000 = kern.fee ∧
      trivialOps.to_pubkey (excessOf testMsg) = some pk ∧
      trivialOps.message_from_slice (trivialOps.hash_from_vec testPid) = some m ∧
      trivialOps.signature_from_compact (sigBytesOf testMsg) = some s ∧
      trivialOps.verify_completed_sig s pk m = true :=
  ⟨rfl, validator_accept_spec trivialOps constLookup testPid testMsg [] 1000000 100
    10000000 rfl (by decide)⟩

theorem replicate_append_same (k : Nat) (a : Int) :
    List.replicate k a ++ [a] = List.replicate (k + 1) a := by
  induction k with
  | zero => rfl
  | succ n ih => rw [List.replicate_succ, List.cons_append, ih, ← List.replicate_succ]

theorem drop_replicate_int (m k : Nat) (a : Int) :
    (List.replicate k a).drop m = List.replicate (k - m) a := by
  induction m generalizing k with
  | zero => simp
  | succ n ih =>
    cases k with
    | zero => simp
    | succ k0 => simp [List.replicate_succ, ih]

theorem trimFront_replicate (k : Nat) (a : Int) :
    trimFront (List.replicate k a) = List.replicate (min k 10) a := by
  simp only [trimFront, drop_replicate_int, List.length_replicate,
    INTEGRITY_CALL_HISTORY_LEN_LIMIT]
  congr 1
  omega

theorem getLastD_replicate (n : Nat) (a d : Int) :
    (List.replicate (n + 1) a).getLastD d = a := by
  induction n generalizing d with
  | zero => rfl
  | succ m ih => rw [List.replicate_succ, List.getLastD_cons]; exact ih a

theorem rate_limit_on_replicate (e : Bytes) (now : Int) (fee : Nat) (k : Nat) :
    rate_limit_update [(e, List.replicate k now)] e now fee =
      ((if 9 ≤ k then Except.ok 0 else Except.ok fee),
       [(e, List.replicate (min (k + 1) 10) now)]) := by
  have hget : cashGet [(e, List.replicate k now)] e = some (List.replicate k now) := by
    simp [cashGet]
  have hset : ∀ v, cashSet [(e, List.replicate k now)] e v = [(e, v)] := by
    intro v; simp [cashSet]
  have hcalls : trimFront (List.replicate k now ++ [now]) =
      List.replicate (min (k + 1) 10) now := by
    rw [replicate_append_same, trimFront_replicate]
  simp only [rate_limit_update, hget, hcalls, hset, List.length_replicate,
    INTEGRITY_CALL_HISTORY_LEN_LIMIT]
  by_cases hk : 9 ≤ k
  · have hmin : min (k + 1) 10 = 10 := by omega
    rw [hmin, if_pos hk, if_pos (by omega)]
    have hlast : (List.replicate 10 now).getLastD 0 = now := getLastD_replicate 9 now 0
    have hhead : (List.replicate 10 now).headD 0 = now := by
      rw [show (10 : Nat) = 9 + 1 from rfl, List.replicate_succ]; rfl
    rw [if_pos]
    rw [hlast, hhead, sub_self]
    decide
  · have hmin : min (k + 1) 10 = k + 1 := by omega
    rw [hmin, if_neg hk, if_neg (by omega)]

theorem rate_limit_on_empty (e : Bytes) (now : Int) (fee : Nat) :
    rate_limit_update [] e now fee = (Except.ok fee, [(e, [now])]) := by
  simp [rate_limit_update, cashGet, cashSet, INTEGRITY_CALL_HISTORY_LEN_LIMIT]

theorem iterate_cash_formula {ops : CryptoOps}
    {lookup : Bytes → Except Unit (Option TxKernel)}
    {pid msg : Bytes} {fb : Nat} {now : Int} {f : Nat}
    (h : (validate_integrity_message ops lookup pid msg [] fb now).res = Except.ok f)
    (hf : 0 < f) :
    ∀ n, iterate_cash ops lookup pid msg fb now (n + 1) =
      [(excessOf msg, List.replicate (min (n + 1) 10) now)] := by
  obtain ⟨hv, pk, m, s, kern, hpk, hm, hsig, hver, hlk, hfee, hval⟩ :=
    validate_ok_pos_spec h hf
  have hstep := validate_checks_passed hv hpk hm hsig hver hlk hfee
  intro n
  induction n with
  | zero =>
    simp only [iterate_cash, hstep [] now, rate_limit_on_empty]
    rfl
  | succ n0 ih =>
    simp only [iterate_cash] at ih ⊢
    rw [ih, hstep _ now, rate_limit_on_replicate]
    have hmm : min (min (n0 + 1) 10 + 1) 10 = min (n0 + 1 + 1) 10 := by omega
    simp [hmm]

/-- C2 amended: when a frame passes all checks from an empty history,
back-to-back calls at one timestamp succeed only nine times; the tenth
call already returns 0, because after its insertion the history holds
ten equal timestamps whose average period 0 is below the limit. The
history for that kernel excess then has exactly ten entries, and every
further back-to-back call keeps returning 0 while the window stays
saturated. Call number n+1 acts on iterate_cash n. -/
theorem rate_limit_trips_at_tenth_call (ops : CryptoOps)
    (lookup : Bytes → Except Unit (Option TxKernel))
    (pid msg : Bytes) (fb : Nat) (now : Int) (f : Nat)
    (h : (validate_integrity_message ops lookup pid msg [] fb now).res = Except.ok f)
    (hf : 0 < f) :
    (∀ n, n < 9 → (validate_integrity_message ops lookup pid msg
        (iterate_cash ops lookup pid msg fb now n) fb now).res = Except.ok f) ∧
    (∀ n, 9 ≤ n → (validate_integrity_message ops lookup pid msg
        (iterate_cash ops lookup pid msg fb now n) fb now).res = Except.ok 0) ∧
    (∀ n, 10 ≤ n →
      cashGet (iterate_cash ops lookup pid msg fb now n) (excessOf msg) =
        some (List.replicate 10 now)) := by
  obtain ⟨hv, pk, m, s, kern, hpk, hm, hsig, hver, hlk, hfee, hval⟩ :=
    validate_ok_pos_spec h hf
  have hstep := validate_checks_passed hv hpk hm hsig hver hlk hfee
  have hiter := iterate_cash_formula h hf
  refine ⟨?_, ?_, ?_⟩
  · intro n hn
    cases n with
    | zero => simpa [iterate_cash] using h
    | succ n0 =>
      rw [hiter n0, hstep _ now, rate_limit_on_replicate]
      have hlt : ¬ 9 ≤ min (n0 + 1) 10 := by omega
      simp [hlt, hval]
  · intro n hn
    cases n with
    | zero => omega
    | succ n0 =>
      rw [hiter n0, hstep _ now, rate_limit_on_replicate]
      have hge : 9 ≤ min (n0 + 1) 10 := by omega
      simp [hge]
  · intro n hn
    cases n with
    | zero => omega
    | succ n0 =>
      rw [hiter n0]
      have hmin : min (n0 + 1) 10 = 10 := by omega
      rw [hmin]
      simp [cashGet]

theorem rate_limit_trips_witness :
    0 < 10000000 ∧
    (validate_integrity_message trivialOps constLookup testPid testMsg
        (iterate_cash trivialOps constLookup testPid testMsg 1000000 100 10)
        1000000 100).res = Except.ok 0 :=
  ⟨by decide,
    (rate_limit_trips_at_tenth_call trivialOps constLookup testPid testMsg
      1000000 100 10000000 rfl (by decide)).2.1 10 (by decide)⟩

set_option maxRecDepth 20000 in
/-- C2 counterexample: on a fully valid frame with fee 10000000, the
tenth back-to-back call returns 0, so the first ten calls do not all
return the kernel fee; the claim that the eleventh call is the first to
return 0 fails on this input. -/
theorem rate_limit_tenth_call_zero :
    (validate_integrity_message trivialOps constLookup testPid testMsg
        (iterate_cash trivialOps constLookup testPid testMsg 1000000 100 9)
        1000000 100).res = Except.ok 0 ∧
    (validate_integrity_message trivialOps constLookup testPid testMsg []
        1000000 100).res = Except.ok 10000000 :=
  ⟨rfl, rfl⟩

theorem validate_checks_passed_err {ops : CryptoOps}
    {lookup : Bytes → Except Unit (Option TxKernel)}
    {pid msg : Bytes} {fb : Nat} {pk m s : Bytes}
    (hv : versionOf msg = 1)
    (hpk : ops.to_pubkey (excessOf msg) = some pk)
    (hm : ops.message_from_slice (ops.hash_from_vec pid) = some m)
    (hsig : ops.signature_from_compact (sigBytesOf msg) = some s)
    (hver : ops.verify_completed_sig s pk m = true)
    (hlk : lookup (excessOf msg) = Except.error ()) :
    ∀ cash now, validate_integrity_message ops lookup pid msg cash fb now =
      ⟨Except.error (), cash, false⟩ := by
  intro cash now
  unfold validate_integrity_message
  split
  · simp_all
  split
  · simp_all
  next pk0 hpk0 =>
  split
  · simp_all
  next m0 hm0 =>
  split
  · simp_all
  next s0 hsig0 =>
  rw [hpk0] at hpk
  rw [hm0] at hm
  rw [hsig0] at hsig
  cases hpk; cases hm; cases hsig
  split
  next =>
    split
    next e0 hlk0 => rfl
    next hlk0 => rw [hlk0] at hlk; cases hlk
    next kern0 hlk0 => rw [hlk0] at hlk; cases hlk
  next hver0 => simp_all

theorem validate_cases (ops : CryptoOps)
    (lookup : Bytes → Except Unit (Option TxKernel))
    (pid msg : Bytes) (cash : RequestsCash) (fb : Nat) (now : Int) :
    ((validate_integrity_message ops lookup pid msg cash fb now).res = Except.ok 0 ∧
     (validate_integrity_message ops lookup pid msg cash fb now).cash = cash) ∨
    (versionOf msg = 1 ∧ ∃ pk m s,
      ops.to_pubkey (excessOf msg) = some pk ∧
      ops.message_from_slice (ops.hash_from_vec pid) = some m ∧
      ops.signature_from_compact (sigBytesOf msg) = some s ∧
      ops.verify_completed_sig s pk m = true ∧
      ((lookup (excessOf msg) = Except.error () ∧
        (validate_integrity_message ops lookup pid msg cash fb now).res =
          Except.error () ∧
        (validate_integrity_message ops lookup pid msg cash fb now).cash = cash) ∨
       (∃ kern, lookup (excessOf msg) = Except.ok (some kern) ∧
         fb * INTEGRITY_FEE_MIN_X ≤ kern.fee ∧
         validate_integrity_message ops lookup pid msg cash fb now =
           ⟨(rate_limit_update cash (excessOf msg) now kern.fee).1,
            (rate_limit_update cash (excessOf msg) now kern.fee).2, false⟩))) := by
  unfold validate_integrity_message
  split
  · exact Or.inl ⟨rfl, rfl⟩
  next hv0 =>
  rw [not_not] at hv0
  split
  · exact Or.inl ⟨rfl, rfl⟩
  next pk hpk =>
  split
  · exact Or.inl ⟨rfl, rfl⟩
  next m hm =>
  split
  · exact Or.inl ⟨rfl, rfl⟩
  next s hsig =>
  split
  next hver =>
    split
    next e0 hlk =>
      cases e0
      exact Or.inr ⟨hv0, pk, m, s, hpk, hm, hsig, hver, Or.inl ⟨hlk, rfl, rfl⟩⟩
    next hlk => exact Or.inl ⟨rfl, rfl⟩
    next kern hlk =>
      split
      next hfee => exact Or.inl ⟨rfl, rfl⟩
      next hfee =>
        exact Or.inr ⟨hv0, pk, m, s, hpk, hm, hsig, hver,
          Or.inr ⟨kern, hlk, Nat.not_lt.mp hfee, rfl⟩⟩
  next hver => exact Or.inl ⟨rfl, rfl⟩

theorem trimFront_length (l : List Int) :
    (trimFront l).length = min l.length INTEGRITY_CALL_HISTORY_LEN_LIMIT := by
  simp only [trimFront, List.length_drop, INTEGRITY_CALL_HISTORY_LEN_LIMIT]
  omega

theorem cashSet_mem : ∀ (cash : RequestsCash) (k : Bytes) (v : List Int),
    ∀ e ∈ cashSet cash k v, e = (k, v) ∨ e ∈ cash := by
  intro cash
  induction cash with
  | nil =>
    intro k v e he
    simp [cashSet] at he
    exact Or.inl he
  | cons hd tl ih =>
    intro k v e he
    obtain ⟨k0, v0⟩ := hd
    simp only [cashSet] at he
    by_cases hk : k0 = k
    · rw [if_pos hk] at he
      rcases List.mem_cons.mp he with h1 | h2
      · exact Or.inl h1
      · exact Or.inr (List.mem_cons_of_mem _ h2)
    · rw [if_neg hk] at he
      rcases List.mem_cons.mp he with h1 | h2
      · exact Or.inr (h1 ▸ List.mem_cons_self _ _)
      · rcases ih k v e h2 with ha | hb
        · exact Or.inl ha
        · exact Or.inr (List.mem_cons_of_mem _ hb)

theorem rate_limit_update_snd (cash : RequestsCash) (e : Bytes) (now : Int) (fee : Nat) :
    ∃ calls, (rate_limit_update cash e now fee).2 = cashSet cash e calls ∧
      calls.length ≤ INTEGRITY_CALL_HISTORY_LEN_LIMIT := by
  refine ⟨(match cashGet cash e with
    | some calls => trimFront (calls ++ [now])
    | none => [now]), ?_, ?_⟩
  · simp only [rate_limit_update]
    split
    · split <;> rfl
    · rfl
  · cases hc : cashGet cash e with
    | some calls =>
      simp only [trimFront_length, List.length_append, List.length_cons,
        List.length_nil, INTEGRITY_CALL_HISTORY_LEN_LIMIT]
      omega
    | none => simp [INTEGRITY_CALL_HISTORY_LEN_LIMIT]

/-- C3: every call of validate_integrity_message preserves the
invariant that no history entry of requests_cash is longer than
INTEGRITY_CALL_HISTORY_LEN_LIMIT; in particular no kernel excess ever
accumulates more than ten timestamps. -/
theorem call_history_len_bounded (ops : CryptoOps)
    (lookup : Bytes → Except Unit (Option TxKernel))
    (pid msg : Bytes) (cash : RequestsCash) (fb : Nat) (now : Int)
    (h : ∀ p ∈ cash, p.2.length ≤ INTEGRITY_CALL_HISTORY_LEN_LIMIT) :
    ∀ p ∈ (validate_integrity_message ops lookup pid msg cash fb now).cash,
      p.2.length ≤ INTEGRITY_CALL_HISTORY_LEN_LIMIT := by
  unfold validate_integrity_message
  split
  · exact h
  split
  · exact h
  next pk hpk =>
  split
  · exact h
  next m hm =>
  split
  · exact h
  next s hsig =>
  split
  next =>
    split
    next e0 hlk => exact h
    next hlk => exact h
    next kern hlk =>
      split
      next => exact h
      next =>
        obtain ⟨calls, hsnd, hlen⟩ :=
          rate_limit_update_snd cash (excessOf msg) now kern.fee
        intro p hp
        have hp2 : p ∈ cashSet cash (excessOf msg) calls := by
          rw [← hsnd]; exact hp
        rcases cashSet_mem _ _ _ p hp2 with h1 | h2
        · rw [h1]; exact hlen
        · exact h p h2
  next => exact h

theorem call_history_len_bounded_witness :
    (∀ p ∈ ([] : RequestsCash), p.2.length ≤ INTEGRITY_CALL_HISTORY_LEN_LIMIT) ∧
    (∀ p ∈ (validate_integrity_message trivialOps constLookup testPid testMsg []
        1000000 100).cash, p.2.length ≤ INTEGRITY_CALL_HISTORY_LEN_LIMIT) :=
  ⟨by simp,
    call_history_len_bounded trivialOps constLookup testPid testMsg [] 1000000 100
      (by simp)⟩

/-- C5: whenever validation fails before the rate-limit stage, because
the kernel excess yields no public key, the signature fails to parse,
the signature fails to verify, the kernel lookup returns none, or the
fee is below the floor, validate_integrity_message returns Ok 0 and
leaves requests_cash completely unchanged. -/
theorem prefail_returns_zero_cash_unchanged (ops : CryptoOps)
    (lookup : Bytes → Except Unit (Option TxKernel))
    (pid msg : Bytes) (cash : RequestsCash) (fb : Nat) (now : Int) :
    (ops.to_pubkey (excessOf msg) = none →
      (validate_integrity_message ops lookup pid msg cash fb now).res = Except.ok 0 ∧
      (validate_integrity_message ops lookup pid msg cash fb now).cash = cash) ∧
    (ops.signature_from_compact (sigBytesOf msg) = none →
      (validate_integrity_message ops lookup pid msg cash fb now).res = Except.ok 0 ∧
      (validate_integrity_message ops lookup pid msg cash fb now).cash = cash) ∧
    ((∀ pk m s, ops.to_pubkey (excessOf msg) = some pk →
        ops.message_from_slice (ops.hash_from_vec pid) = some m →
        ops.signature_from_compact (sigBytesOf msg) = some s →
        ops.verify_completed_sig s pk m = false) →
      (validate_integrity_message ops lookup pid msg cash fb now).res = Except.ok 0 ∧
      (validate_integrity_message ops lookup pid msg cash fb now).cash = cash) ∧
    (lookup (excessOf msg) = Except.ok none →
      (validate_integrity_message ops lookup pid msg cash fb now).res = Except.ok 0 ∧
      (validate_integrity_message ops lookup pid msg cash fb now).cash = cash) ∧
    (∀ kern, lookup (excessOf msg) = Except.ok (some kern) →
      kern.fee < fb * INTEGRITY_FEE_MIN_X →
      (validate_integrity_message ops lookup pid msg cash fb now).res = Except.ok 0 ∧
      (validate_integrity_message ops lookup pid msg cash fb now).cash = cash) := by
  have M := validate_cases ops lookup pid msg cash fb now
  refine ⟨?_, ?_, ?_, ?_, ?_⟩
  · intro hd
    rcases M with ⟨h1, h2⟩ | ⟨hv, pk, m, s, hpk, hrest⟩
    · exact ⟨h1, h2⟩
    · rw [hd] at hpk; cases hpk
  · intro hd
    rcases M with ⟨h1, h2⟩ | ⟨hv, pk, m, s, hpk, hm, hsig, hrest⟩
    · exact ⟨h1, h2⟩
    · rw [hd] at hsig; cases hsig
  · intro hd
    rcases M with ⟨h1, h2⟩ | ⟨hv, pk, m, s, hpk, hm, hsig, hver, hrest⟩
    · exact ⟨h1, h2⟩
    · rw [hd pk m s hpk hm hsig] at hver; cases hver
  · intro hd
    rcases M with ⟨h1, h2⟩ | ⟨hv, pk, m, s, hpk, hm, hsig, hver, hrest⟩
    · exact ⟨h1, h2⟩
    · rcases hrest with ⟨hlk, -, -⟩ | ⟨kern, hlk, -, -⟩
      · rw [hd] at hlk; cases hlk
      · rw [hd] at hlk; simp at hlk
  · intro kern hlkh hfeeh
    rcases M with ⟨h1, h2⟩ | ⟨hv, pk, m, s, hpk, hm, hsig, hver, hrest⟩
    · exact ⟨h1, h2⟩
    · rcases hrest with ⟨hlk, -, -⟩ | ⟨kern0, hlk, hfee0, -⟩
      · rw [hlkh] at hlk; cases hlk
      · rw [hlkh] at hlk
        simp at hlk
        rw [hlk] at hfeeh
        omega

theorem prefail_witness :
    pubkeyNoneOps.to_pubkey (excessOf testMsg) = none ∧
    (validate_integrity_message pubkeyNoneOps constLookup testPid testMsg []
        1000000 100).res = Except.ok 0 ∧
    (validate_integrity_message pubkeyNoneOps constLookup testPid testMsg []
        1000000 100).cash = [] :=
  ⟨rfl, (prefail_returns_zero_cash_unchanged pubkeyNoneOps constLookup testPid
    testMsg [] 1000000 100).1 rfl⟩

/-- C6: validate_integrity_message returns Err exactly when the kernel
lookup returns Err on the decoded kernel excess after the decode and
signature checks pass, and in that case requests_cash is unchanged;
every other outcome is an Ok value. -/
theorem validator_error_iff_lookup_error (ops : CryptoOps)
    (lookup : Bytes → Except Unit (Option TxKernel))
    (pid msg : Bytes) (cash : RequestsCash) (fb : Nat) (now : Int) :
    ((validate_integrity_message ops lookup pid msg cash fb now).res =
        Except.error () ↔
      (versionOf msg = 1 ∧ ∃ pk m s,
        ops.to_pubkey (excessOf msg) = some pk ∧
        ops.message_from_slice (ops.hash_from_vec pid) = some m ∧
        ops.signature_from_compact (sigBytesOf msg) = some s ∧
        ops.verify_completed_sig s pk m = true ∧
        lookup (excessOf msg) = Except.error ())) ∧
    ((validate_integrity_message ops lookup pid msg cash fb now).res =
        Except.error () →
      (validate_integrity_message ops lookup pid msg cash fb now).cash = cash) := by
  have M := validate_cases ops lookup pid msg cash fb now
  constructor
  · constructor
    · intro herr
      rcases M with ⟨h1, -⟩ | ⟨hv, pk, m, s, hpk, hm, hsig, hver, hrest⟩
      · rw [h1] at herr; cases herr
      · rcases hrest with ⟨hlk, -, -⟩ | ⟨kern, hlk, hfee, hout⟩
        · exact ⟨hv, pk, m, s, hpk, hm, hsig, hver, hlk⟩
        · exfalso
          have hres : (rate_limit_update cash (excessOf msg) now kern.fee).1 =
              Except.error () := by rw [hout] at herr; exact herr
          rcases rate_limit_res_cases cash (excessOf msg) now kern.fee with hr | hr <;>
            rw [hr] at hres <;> cases hres
    · rintro ⟨hv, pk, m, s, hpk, hm, hsig, hver, hlk⟩
      rw [validate_checks_passed_err hv hpk hm hsig hver hlk cash now]
  · intro herr
    rcases M with ⟨h1, -⟩ | ⟨hv, pk, m, s, hpk, hm, hsig, hver, hrest⟩
    · rw [h1] at herr; cases herr
    · rcases hrest with ⟨hlk, -, hcash⟩ | ⟨kern, hlk, hfee, hout⟩
      · exact hcash
      · exfalso
        have hres : (rate_limit_update cash (excessOf msg) now kern.fee).1 =
            Except.error () := by rw [hout] at herr; exact herr
        rcases rate_limit_res_cases cash (excessOf msg) now kern.fee with hr | hr <;>
          rw [hr] at hres <;> cases hres

theorem validator_error_iff_witness :
    (validate_integrity_message trivialOps errLookup testPid testMsg []
        1000000 100).res = Except.error () ∧
    (validate_integrity_message trivialOps errLookup testPid testMsg []
        1000000 100).cash = [] :=
  ⟨rfl, (validator_error_iff_lookup_error trivialOps errLookup testPid testMsg []
    1000000 100).2 rfl⟩

/-- C7 amended: a frame whose version byte is not 1 makes the validator
return Ok 0 with requests_cash unchanged, and on exactly this path the
debug assertion of the validator, debug_assert false at source line 664,
fires; it is disabled in release builds, but the claim that no input
frame can make an assertion in the validator fire fails in debug
builds. -/
theorem version_mismatch_rejected (ops : CryptoOps)
    (lookup : Bytes → Except Unit (Option TxKernel))
    (pid msg : Bytes) (cash : RequestsCash) (fb : Nat) (now : Int)
    (h : versionOf msg ≠ 1) :
    validate_integrity_message ops lookup pid msg cash fb now =
      ⟨Except.ok 0, cash, true⟩ := by
  unfold validate_integrity_message
  rw [if_pos h]

theorem version_mismatch_rejected_witness :
    versionOf [2] ≠ 1 ∧
    validate_integrity_message trivialOps constLookup testPid [2] [] 1000000 100 =
      ⟨Except.ok 0, [], true⟩ :=
  ⟨by decide,
    version_mismatch_rejected trivialOps constLookup testPid [2] [] 1000000 100
      (by decide)⟩

/-- C7 counterexample: the frame consisting of the single version byte 2
returns 0 but makes the debug assertion of the validator fire, so it is
not true that no input frame can make an assertion in the validator
fire. -/
theorem version_mismatch_assert_fires :
    (validate_integrity_message trivialOps constLookup testPid [2] []
        1000000 100).assertFired = true ∧
    (validate_integrity_message trivialOps constLookup testPid [2] []
        1000000 100).res = Except.ok 0 :=
  ⟨rfl, rfl⟩

theorem validate_decode_congr (ops : CryptoOps)
    (lookup : Bytes → Except Unit (Option TxKernel))
    (pid m1 m2 : Bytes) (cash : RequestsCash) (fb : Nat) (now : Int)
    (hv : versionOf m1 = versionOf m2) (he : excessOf m1 = excessOf m2)
    (hs : sigBytesOf m1 = sigBytesOf m2) :
    validate_integrity_message ops lookup pid m1 cash fb now =
    validate_integrity_message ops lookup pid m2 cash fb now := by
  unfold validate_integrity_message
  rw [hv, he, hs]

/-- C8: the validator result does not depend on the payload; two frames
built with the same kernel excess and compact signature but different
payloads, validated for the same peer against the same requests_cash
state, lookup function, fee base and timestamp, give the same returned
value and the same requests_cash state. -/
theorem validator_payload_independent (ops : CryptoOps)
    (lookup : Bytes → Except Unit (Option TxKernel))
    (pid : Bytes) (cash : RequestsCash) (fb : Nat) (now : Int)
    (k s p1 p2 : Bytes) (hk : k.length = 33) (hsl : s.length = 64) :
    validate_integrity_message ops lookup pid (build_integrity_message k s p1)
        cash fb now =
    validate_integrity_message ops lookup pid (build_integrity_message k s p2)
        cash fb now := by
  apply validate_decode_congr
  · rw [versionOf_build, versionOf_build]
  · rw [excessOf_build k s p1 (by omega), excessOf_build k s p2 (by omega)]
  · rw [sigBytesOf_build k s p1 (by omega) (by omega),
      sigBytesOf_build k s p2 (by omega) (by omega)]

theorem validator_payload_independent_witness :
    (List.replicate 33 8 : Bytes).length = 33 ∧
    validate_integrity_message trivialOps constLookup testPid testMsg []
        1000000 100 =
      validate_integrity_message trivialOps constLookup testPid
        (build_integrity_message (List.replicate 33 8) (List.replicate 64 1) [9])
        [] 1000000 100 :=
  ⟨by decide,
    validator_payload_independent trivialOps constLookup testPid [] 1000000 100
      (List.replicate 33 8) (List.replicate 64 1) [1, 2, 3, 4, 3, 2, 1] [9]
      (by decide) (by decide)⟩

/-- C9 amended: for a PEER_TOPIC message from a connected peer, a frame
whose version byte is not 1 is skipped, leaving the peer directory
unchanged and without disconnecting or banning the sender, while a
declared peer count above PEER_EXCHANGE_NUMBER_LIMIT leads to a forced
disconnect with ban and leaves the directory unchanged; in both cases
the verdict already reported is Ignore. -/
theorem px_malformed_frame_handling (ops : PeerOps) (limit : Nat)
    (pid data : Bytes) (peers : PeersDir) (now : Int) :
    (versionOf data ≠ 1 →
      handle_peer_exchange ops limit true pid data peers now =
        ⟨some MessageAcceptance.Ignore, false, peers⟩) ∧
    (versionOf data = 1 → limit < szOf data →
      handle_peer_exchange ops limit true pid data peers now =
        ⟨some MessageAcceptance.Ignore, true, peers⟩) := by
  constructor
  · intro h
    unfold handle_peer_exchange
    rw [if_neg (by simp), if_pos h]
  · intro h1 h2
    unfold handle_peer_exchange
    rw [if_neg (by simp), if_neg (by simp [h1]), if_pos h2]

theorem px_malformed_witness :
    versionOf [1, 5, 0] = 1 ∧
    handle_peer_exchange trivialPeerOps 2 true testPid [1, 5, 0] [] 0 =
      ⟨some MessageAcceptance.Ignore, true, []⟩ :=
  ⟨by decide,
    (px_malformed_frame_handling trivialPeerOps 2 testPid [1, 5, 0] [] 0).2
      (by decide) (by decide)⟩

/-- C9 counterexample: a PEER_TOPIC frame with version byte 2 from a
connected peer is skipped without disconnecting or banning the sender,
so the claim that a version other than 1 leads to a forced disconnect
and ban fails on this input; the directory is indeed not updated. -/
theorem px_bad_version_no_ban :
    versionOf [2] ≠ 1 ∧
    (handle_peer_exchange trivialPeerOps 1000 true testPid [2] []
        0).disconnected_banned = false ∧
    (handle_peer_exchange trivialPeerOps 1000 true testPid [2] [] 0).peers = [] :=
  ⟨by decide, rfl, rfl⟩

theorem dirGet_dirInsert (peers : PeersDir) (k : String) (v : List String × Int) :
    dirGet (dirInsert peers k v) k = some v := by
  induction peers with
  | nil => simp [dirInsert, dirGet]
  | cons hd tl ih =>
    obtain ⟨k0, v0⟩ := hd
    by_cases hk : k0 = k
    · simp [dirInsert, dirGet, hk]
    · simp [dirInsert, dirGet, hk, ih]

theorem dirGet_dirRemove (peers : PeersDir) (k : String) :
    dirGet (dirRemove peers k) k = none := by
  induction peers with
  | nil => rfl
  | cons hd tl ih =>
    obtain ⟨k0, v0⟩ := hd
    by_cases hk : k0 = k
    · simp [dirRemove, hk, ih]
    · simp [dirRemove, dirGet, hk, ih]

/-- C10 amended: when the dialer pops an address of a publisher whose
neighbor list is non-empty, the entry stays in the directory with the
popped address erased, even when the list thereby becomes empty; an
entry whose list is found already empty when the publisher is selected
is removed at that later step. The directory can therefore map a key to
an empty neighbors list. -/
theorem dialer_empty_list_lifecycle (peers : PeersDir) (key : String) (i : Nat)
    (addrs : List String) (t : Int) (h : dirGet peers key = some (addrs, t)) :
    (addrs ≠ [] → dirGet (dialer_take_address peers key i).peers key =
      some (addrs.eraseIdx (i % addrs.length), t)) ∧
    (addrs = [] → dirGet (dialer_take_address peers key i).peers key = none) := by
  constructor
  · intro hne
    simp [dialer_take_address, h, hne, dirGet_dirInsert]
  · intro he
    simp [dialer_take_address, h, he, dirGet_dirRemove]

theorem dialer_lifecycle_witness :
    dirGet [("a", (["x"], (0 : Int)))] "a" = some (["x"], 0) ∧
    dirGet (dialer_take_address [("a", (["x"], (0 : Int)))] "a" 0).peers "a" =
      some ([], 0) :=
  ⟨rfl,
    (dialer_empty_list_lifecycle [("a", (["x"], 0))] "a" 0 ["x"] 0 rfl).1
      (by simp)⟩

/-- C10 counterexample: popping the last address of publisher a leaves
the key a in the directory bound to an empty neighbors list, so the
publisher entry is not removed in the same step and the directory does
map a present key to an empty list. -/
theorem dialer_leaves_empty_entry :
    (dialer_take_address [("a", (["x"], (0 : Int)))] "a" 0).popped = some "x" ∧
    dirGet (dialer_take_address [("a", (["x"], (0 : Int)))] "a" 0).peers "a" =
      some ([], 0) :=
  ⟨rfl, rfl⟩
